import Mathlib

/-!
Verification of the timer-driven stepper motion engine of the
esp-32 motor control repository.

The embedding models `TimerStepperControl` (TimerStepperControl.cpp, the
variant with acceleration ramping and jog mode, matching
TimerStepperControl.h) and the sequence-leg movement computation of
`moveToNextSequencePosition` in the main sketch.

Modelling conventions:
* `float` fields are modelled as exact rationals (`ℚ`);
* `micros()` is modelled as a monotone `Nat` clock (no 32-bit rollover
  within the modelled horizon), so `currentTime - lastAccelUpdateTime`
  is truncated `Nat` subtraction;
* the stepper driver is folded into the state as the fields
  `driverEnabled`, `driverDirection`, `driverSpeed` and a `stepsEmitted`
  counter incremented exactly where the code calls `_driver->step()`.
-/

set_option maxHeartbeats 1000000

namespace MotorControl

/-- The `MotorCommandType` enum of TimerStepperControl.h. -/
inductive MotorCommandType where
  | CMD_MOVE_TO
  | CMD_MOVE_STEPS
  | CMD_SET_SPEED
  | CMD_START_JOG
  | CMD_STOP_JOG
  | CMD_MOVE_JOG
  | CMD_START_CONTINUOUS
  | CMD_STOP_MOTOR
  | CMD_SET_ACCELERATION
deriving DecidableEq

export MotorCommandType (CMD_MOVE_TO CMD_MOVE_STEPS CMD_SET_SPEED CMD_START_JOG
  CMD_STOP_JOG CMD_MOVE_JOG CMD_START_CONTINUOUS CMD_STOP_MOTOR CMD_SET_ACCELERATION)

/-- The `MotorCommand_t` struct of TimerStepperControl.h. -/
structure MotorCommand where
  cmd_type : MotorCommandType
  position : ℤ
  speed : ℤ
  direction : Bool
  continuous : Bool
  acceleration : ℤ
deriving DecidableEq

/-- The state of a `TimerStepperControl` object (TimerStepperControl.h),
together with the observable driver state. -/
structure MotorState where
  isRunning : Bool
  isContinuous : Bool
  direction : Bool
  speed : ℤ
  currentPosition : ℤ
  targetPosition : ℤ
  acceleration : ℤ
  minStepInterval : ℕ
  lastStepTime : ℕ
  stepAccumulator : ℚ
  stepsPerMs : ℚ
  currentSpeed : ℚ
  lastAccelUpdateTime : ℕ
  jogMode : Bool
  driverEnabled : Bool
  driverDirection : Bool
  driverSpeed : ℤ
  stepsEmitted : ℕ
deriving DecidableEq

/-- The constructor initialization list of `TimerStepperControl` (the
driver's `init()` leaves the motor disabled). -/
def initialState : MotorState where
  isRunning := false
  isContinuous := false
  direction := true
  speed := 0
  currentPosition := 0
  targetPosition := 0
  acceleration := 6400
  minStepInterval := 1000
  lastStepTime := 0
  stepAccumulator := 0
  stepsPerMs := 0
  currentSpeed := 0
  lastAccelUpdateTime := 0
  jogMode := false
  driverEnabled := false
  driverDirection := true
  driverSpeed := 0
  stepsEmitted := 0

/-- `elapsedTime / 1000000.0f`: elapsed microseconds as seconds. -/
def elapsedSec (elapsedTime : ℕ) : ℚ := (elapsedTime : ℚ) / 1000000

/-- The speed-update block at the top of `processStep`: acceleration-limited
ramping toward `_speed`, bypassed entirely in jog mode. -/
def rampedSpeed (cs : ℚ) (spd accel : ℤ) (jog : Bool) (eSec : ℚ) : ℚ :=
  if jog then (spd : ℚ)
  else if cs < (spd : ℚ) ∧ 0 < accel then
    (if (spd : ℚ) < cs + (accel : ℚ) * eSec then (spd : ℚ)
     else cs + (accel : ℚ) * eSec)
  else if (spd : ℚ) < cs ∧ 0 < accel then
    (if cs - (accel : ℚ) * eSec < 0 then 0
     else cs - (accel : ℚ) * eSec)
  else cs

/-- `TimerStepperControl::processStep()` (the acceleration/jog variant),
called at `currentTime = micros()`. -/
def processStep (s : MotorState) (currentTime : ℕ) : MotorState :=
  if !s.isRunning then s
  else
    let elapsedTime : ℕ := currentTime - s.lastAccelUpdateTime
    let eSec : ℚ := elapsedSec elapsedTime
    let cs : ℚ := rampedSpeed s.currentSpeed s.speed s.acceleration s.jogMode eSec
    let acc : ℚ := s.stepAccumulator + cs * eSec
    if 1 ≤ acc then
      if s.isContinuous then
        { s with lastAccelUpdateTime := currentTime, currentSpeed := cs,
                 stepAccumulator := acc - 1,
                 driverDirection := s.direction,
                 stepsEmitted := s.stepsEmitted + 1,
                 currentPosition :=
                   if s.direction then s.currentPosition + 1 else s.currentPosition - 1 }
      else if s.currentPosition = s.targetPosition then
        { s with lastAccelUpdateTime := currentTime, currentSpeed := cs,
                 stepAccumulator := acc - 1,
                 isRunning := false, driverEnabled := false }
      else if s.currentPosition < s.targetPosition then
        { s with lastAccelUpdateTime := currentTime, currentSpeed := cs,
                 stepAccumulator := acc - 1,
                 driverDirection := true,
                 stepsEmitted := s.stepsEmitted + 1,
                 currentPosition := s.currentPosition + 1 }
      else
        { s with lastAccelUpdateTime := currentTime, currentSpeed := cs,
                 stepAccumulator := acc - 1,
                 driverDirection := false,
                 stepsEmitted := s.stepsEmitted + 1,
                 currentPosition := s.currentPosition - 1 }
    else
      { s with lastAccelUpdateTime := currentTime, currentSpeed := cs,
               stepAccumulator := acc }

/-- `_minStepInterval = _speed > 0 ? 1000000 / _speed : 1000000`. -/
def minIntervalFor (spd : ℤ) : ℕ :=
  if 0 < spd then (1000000 / spd).toNat else 1000000

/-- `TimerStepperControl::handleCommand` (the acceleration/jog variant);
`now` is the value `micros()` returns where the handler reads it. -/
def handleCommand (s : MotorState) (cmd : MotorCommand) (now : ℕ) : MotorState :=
  match cmd.cmd_type with
  | CMD_MOVE_TO =>
      { s with targetPosition := cmd.position, speed := cmd.speed,
               driverSpeed := cmd.speed,
               minStepInterval := minIntervalFor cmd.speed,
               stepsPerMs := (cmd.speed : ℚ) / 1000,
               stepAccumulator := 0,
               isRunning := true, isContinuous := false,
               driverEnabled := true, jogMode := false }
  | CMD_MOVE_STEPS =>
      { s with targetPosition := s.currentPosition + cmd.position, speed := cmd.speed,
               driverSpeed := cmd.speed,
               minStepInterval := minIntervalFor cmd.speed,
               stepsPerMs := (cmd.speed : ℚ) / 1000,
               stepAccumulator := 0,
               isRunning := true, isContinuous := false,
               driverEnabled := true,
               currentSpeed := 0,
               lastAccelUpdateTime := now,
               jogMode := false }
  | CMD_SET_SPEED =>
      { s with speed := cmd.speed, driverSpeed := cmd.speed,
               minStepInterval := minIntervalFor cmd.speed,
               stepsPerMs := (cmd.speed : ℚ) / 1000 }
  | CMD_START_JOG =>
      { s with speed := cmd.speed, driverSpeed := cmd.speed,
               minStepInterval := minIntervalFor cmd.speed,
               stepsPerMs := (cmd.speed : ℚ) / 1000,
               stepAccumulator := 0,
               isRunning := true, isContinuous := false,
               jogMode := true, driverEnabled := true }
  | CMD_MOVE_JOG =>
      { s with targetPosition := s.currentPosition + cmd.position, speed := cmd.speed,
               driverSpeed := cmd.speed,
               minStepInterval := minIntervalFor cmd.speed,
               stepsPerMs := (cmd.speed : ℚ) / 1000,
               stepAccumulator := 0,
               isRunning := true, isContinuous := false,
               jogMode := true, driverEnabled := true }
  | CMD_START_CONTINUOUS =>
      { s with direction := cmd.direction, speed := cmd.speed,
               driverSpeed := cmd.speed,
               minStepInterval := minIntervalFor cmd.speed,
               stepsPerMs := (cmd.speed : ℚ) / 1000,
               stepAccumulator := 0,
               isRunning := true, isContinuous := true,
               driverDirection := cmd.direction,
               driverEnabled := true,
               currentSpeed := 0,
               lastAccelUpdateTime := now,
               jogMode := false }
  | CMD_STOP_MOTOR =>
      { s with isRunning := false, isContinuous := false,
               driverEnabled := false, jogMode := false }
  | CMD_STOP_JOG => s
  | CMD_SET_ACCELERATION => s

/-- `TimerStepperControl::setCurrentPosition`. -/
def setCurrentPosition (s : MotorState) (position : ℤ) : MotorState :=
  { s with currentPosition := position, targetPosition := position }

/-- The movement-percentage computation of `moveToNextSequencePosition`
(sequence-leg wraparound logic). -/
def movementPercent (sourcePosition targetPos : ℚ) (moveClockwise : Bool) : ℚ :=
  if |targetPos - sourcePosition| < 1/10 then 100
  else if moveClockwise then
    (if sourcePosition < targetPos then targetPos - sourcePosition
     else (100 - sourcePosition) + targetPos)
  else
    (if targetPos < sourcePosition then sourcePosition - targetPos
     else sourcePosition + (100 - targetPos))

/-- One engine tick fired `δ` microseconds after the previous baseline
(`micros() = lastAccelUpdateTime + δ`). -/
def tickEvery (δ : ℕ) (s : MotorState) : MotorState :=
  processStep s (s.lastAccelUpdateTime + δ)

/-- The engine state right after `CMD_MOVE_TO` is processed from rest:
position 0, target `N`, target speed `spd`, acceleration `accel`,
zero instantaneous speed and accumulator, baseline `t0`. -/
def posMoveStart (N spd accel : ℤ) (t0 : ℕ) : MotorState where
  isRunning := true
  isContinuous := false
  direction := true
  speed := spd
  currentPosition := 0
  targetPosition := N
  acceleration := accel
  minStepInterval := minIntervalFor spd
  lastStepTime := t0
  stepAccumulator := 0
  stepsPerMs := (spd : ℚ) / 1000
  currentSpeed := 0
  lastAccelUpdateTime := t0
  jogMode := false
  driverEnabled := true
  driverDirection := true
  driverSpeed := spd
  stepsEmitted := 0

/-- The accumulator gain a tick contributes:
`rampedSpeed * elapsedSeconds` for a tick `δ` microseconds after the baseline. -/
def tickGain (δ : ℕ) (s : MotorState) : ℚ :=
  rampedSpeed s.currentSpeed s.speed s.acceleration s.jogMode (elapsedSec δ) * elapsedSec δ

/-- A lower bound on the accumulator gain of any running position-mode tick:
the ramped speed is at least `min targetSpeed (accel * elapsedSeconds)`. -/
def accelGain (spd accel : ℤ) (δ : ℕ) : ℚ :=
  min (spd : ℚ) ((accel : ℚ) * elapsedSec δ) * elapsedSec δ

/-- Invariant of a position-mode run toward target `N` with target speed `spd`
and acceleration `accel`: the engine stays in position mode, position stays in
`[0, N]`, instantaneous speed stays in `[0, spd]`, the accumulator stays
nonnegative, the emitted-step count equals the position, and the running flag
only clears once the target is reached. -/
def PosInv (N spd accel : ℤ) (s : MotorState) : Prop :=
  s.isContinuous = false ∧ s.jogMode = false ∧
  s.targetPosition = N ∧ s.speed = spd ∧ s.acceleration = accel ∧
  0 ≤ s.currentPosition ∧ s.currentPosition ≤ N ∧
  0 ≤ s.currentSpeed ∧ s.currentSpeed ≤ (spd : ℚ) ∧
  0 ≤ s.stepAccumulator ∧
  (s.stepsEmitted : ℤ) = s.currentPosition ∧
  (s.isRunning = false → s.currentPosition = N)

/-- A reachable idle state with nonzero residual `currentSpeed`: a
`CMD_MOVE_TO` whose target equals the current position, ticked once 3 s
later (the crossing tick ramps the speed, sees position = target, and
clears the running flag without zeroing `currentSpeed`). -/
def idleCoasting : MotorState :=
  processStep (handleCommand initialState ⟨CMD_MOVE_TO, 0, 1000000, true, false, 0⟩ 0) 3000000

/-- The tick that emits the final step of a 1-step `CMD_MOVE_TO` move:
position reaches the target on this tick. -/
def finalStepTick : MotorState :=
  processStep (posMoveStart 1 1000000 6400 0) 3000000

/-- `posMoveStart` is reachable: it is exactly the state `handleCommand`
produces for a `CMD_MOVE_TO` received in the constructor-initial state. -/
theorem posMoveStart_reachable (N spd : ℤ) :
    posMoveStart N spd 6400 0 =
      handleCommand initialState ⟨CMD_MOVE_TO, N, spd, true, false, 0⟩ 0 := rfl

/-- A tick on a stopped engine is the identity. -/
theorem tickEvery_not_running {δ : ℕ} {s : MotorState} (h : s.isRunning = false) :
    tickEvery δ s = s := by
  simp [tickEvery, processStep, h]

/-- `elapsedSec` is nonnegative. -/
theorem elapsedSec_nonneg (e : ℕ) : 0 ≤ elapsedSec e := by
  unfold elapsedSec
  positivity

/-- `elapsedSec` of a positive microsecond count is positive. -/
theorem elapsedSec_pos {e : ℕ} (h : 0 < e) : 0 < elapsedSec e := by
  unfold elapsedSec
  have : (0 : ℚ) < (e : ℚ) := by exact_mod_cast h
  positivity

/-- Bounds on the ramped speed in position mode: starting from a speed in
`[0, spd]` it stays in `[0, spd]` and is at least `min spd (accel * eSec)`. -/
theorem rampedSpeed_bounds {cs : ℚ} {spd accel : ℤ} {eSec : ℚ}
    (hcs0 : 0 ≤ cs) (hcs1 : cs ≤ (spd : ℚ)) (ha : 0 < accel) (hE : 0 ≤ eSec) :
    0 ≤ rampedSpeed cs spd accel false eSec ∧
    rampedSpeed cs spd accel false eSec ≤ (spd : ℚ) ∧
    min (spd : ℚ) ((accel : ℚ) * eSec) ≤ rampedSpeed cs spd accel false eSec := by
  have haQ : (0 : ℚ) ≤ (accel : ℚ) := by exact_mod_cast ha.le
  have haE : 0 ≤ (accel : ℚ) * eSec := mul_nonneg haQ hE
  unfold rampedSpeed
  simp only [Bool.false_eq_true, if_false]
  by_cases h1 : cs < (spd : ℚ) ∧ 0 < accel
  · simp only [if_pos h1]
    by_cases h2 : (spd : ℚ) < cs + (accel : ℚ) * eSec
    · simp only [if_pos h2]
      refine ⟨by linarith [h1.1], le_refl _, min_le_left _ _⟩
    · simp only [if_neg h2]
      refine ⟨by linarith, by linarith, ?_⟩
      exact le_trans (min_le_right _ _) (by linarith)
  · simp only [if_neg h1]
    have hcs : cs = (spd : ℚ) := by
      rcases lt_or_eq_of_le hcs1 with h | h
      · exact absurd ⟨h, ha⟩ h1
      · exact h
    have h2 : ¬((spd : ℚ) < cs ∧ 0 < accel) := by
      intro hc
      exact absurd hcs (ne_of_gt hc.1)
    simp only [if_neg h2]
    exact ⟨hcs0, hcs1, by rw [hcs]; exact min_le_left _ _⟩

/-- A running tick whose accumulator does not cross 1: only the speed, the
accumulator and the baseline change. -/
theorem processStep_no_cross {s : MotorState} {t : ℕ} (hrun : s.isRunning = true)
    (hncr : ¬ 1 ≤ s.stepAccumulator + tickGain (t - s.lastAccelUpdateTime) s) :
    processStep s t =
      { s with lastAccelUpdateTime := t,
               currentSpeed :=
                 rampedSpeed s.currentSpeed s.speed s.acceleration s.jogMode
                   (elapsedSec (t - s.lastAccelUpdateTime)),
               stepAccumulator := s.stepAccumulator + tickGain (t - s.lastAccelUpdateTime) s } := by
  unfold processStep
  simp only [hrun, Bool.not_true, Bool.false_eq_true, if_false]
  rw [if_neg (by simpa [tickGain] using hncr)]
  simp [tickGain]

/-- A running position-mode crossing tick with position already at target:
the running flag clears and the driver is disabled, no step is emitted. -/
theorem processStep_cross_at_target {s : MotorState} {t : ℕ} (hrun : s.isRunning = true)
    (hcont : s.isContinuous = false) (hpos : s.currentPosition = s.targetPosition)
    (hcr : 1 ≤ s.stepAccumulator + tickGain (t - s.lastAccelUpdateTime) s) :
    processStep s t =
      { s with lastAccelUpdateTime := t,
               currentSpeed :=
                 rampedSpeed s.currentSpeed s.speed s.acceleration s.jogMode
                   (elapsedSec (t - s.lastAccelUpdateTime)),
               stepAccumulator := s.stepAccumulator + tickGain (t - s.lastAccelUpdateTime) s - 1,
               isRunning := false, driverEnabled := false } := by
  unfold processStep
  simp only [hrun, Bool.not_true, Bool.false_eq_true, if_false]
  rw [if_pos (by simpa [tickGain] using hcr)]
  simp [hcont, hpos, tickGain]

/-- A running position-mode crossing tick with position below target:
one step is emitted forward. -/
theorem processStep_cross_below_target {s : MotorState} {t : ℕ} (hrun : s.isRunning = true)
    (hcont : s.isContinuous = false) (hpos : s.currentPosition < s.targetPosition)
    (hcr : 1 ≤ s.stepAccumulator + tickGain (t - s.lastAccelUpdateTime) s) :
    processStep s t =
      { s with lastAccelUpdateTime := t,
               currentSpeed :=
                 rampedSpeed s.currentSpeed s.speed s.acceleration s.jogMode
                   (elapsedSec (t - s.lastAccelUpdateTime)),
               stepAccumulator := s.stepAccumulator + tickGain (t - s.lastAccelUpdateTime) s - 1,
               driverDirection := true,
               stepsEmitted := s.stepsEmitted + 1,
               currentPosition := s.currentPosition + 1 } := by
  unfold processStep
  simp only [hrun, Bool.not_true, Bool.false_eq_true, if_false]
  rw [if_pos (by simpa [tickGain] using hcr)]
  simp [hcont, ne_of_lt hpos, hpos, tickGain]

/-- A running position-mode crossing tick with position above target:
one step is emitted backward. -/
theorem processStep_cross_above_target {s : MotorState} {t : ℕ} (hrun : s.isRunning = true)
    (hcont : s.isContinuous = false) (hpos : s.targetPosition < s.currentPosition)
    (hcr : 1 ≤ s.stepAccumulator + tickGain (t - s.lastAccelUpdateTime) s) :
    processStep s t =
      { s with lastAccelUpdateTime := t,
               currentSpeed :=
                 rampedSpeed s.currentSpeed s.speed s.acceleration s.jogMode
                   (elapsedSec (t - s.lastAccelUpdateTime)),
               stepAccumulator := s.stepAccumulator + tickGain (t - s.lastAccelUpdateTime) s - 1,
               driverDirection := false,
               stepsEmitted := s.stepsEmitted + 1,
               currentPosition := s.currentPosition - 1 } := by
  unfold processStep
  simp only [hrun, Bool.not_true, Bool.false_eq_true, if_false]
  rw [if_pos (by simpa [tickGain] using hcr)]
  simp [hcont, ne_of_gt hpos, not_lt_of_gt hpos, tickGain]

/-- `tickEvery` version of `processStep_no_cross`. -/
theorem tickEvery_no_cross {δ : ℕ} {s : MotorState} (hrun : s.isRunning = true)
    (hncr : ¬ 1 ≤ s.stepAccumulator + tickGain δ s) :
    tickEvery δ s =
      { s with lastAccelUpdateTime := s.lastAccelUpdateTime + δ,
               currentSpeed :=
                 rampedSpeed s.currentSpeed s.speed s.acceleration s.jogMode (elapsedSec δ),
               stepAccumulator := s.stepAccumulator + tickGain δ s } := by
  unfold tickEvery
  rw [processStep_no_cross hrun (by simpa [Nat.add_sub_cancel_left] using hncr)]
  simp [Nat.add_sub_cancel_left]

/-- `tickEvery` version of `processStep_cross_at_target`. -/
theorem tickEvery_cross_at_target {δ : ℕ} {s : MotorState} (hrun : s.isRunning = true)
    (hcont : s.isContinuous = false) (hpos : s.currentPosition = s.targetPosition)
    (hcr : 1 ≤ s.stepAccumulator + tickGain δ s) :
    tickEvery δ s =
      { s with lastAccelUpdateTime := s.lastAccelUpdateTime + δ,
               currentSpeed :=
                 rampedSpeed s.currentSpeed s.speed s.acceleration s.jogMode (elapsedSec δ),
               stepAccumulator := s.stepAccumulator + tickGain δ s - 1,
               isRunning := false, driverEnabled := false } := by
  unfold tickEvery
  rw [processStep_cross_at_target hrun hcont hpos
    (by simpa [Nat.add_sub_cancel_left] using hcr)]
  simp [Nat.add_sub_cancel_left]

/-- `tickEvery` version of `processStep_cross_below_target`. -/
theorem tickEvery_cross_below_target {δ : ℕ} {s : MotorState} (hrun : s.isRunning = true)
    (hcont : s.isContinuous = false) (hpos : s.currentPosition < s.targetPosition)
    (hcr : 1 ≤ s.stepAccumulator + tickGain δ s) :
    tickEvery δ s =
      { s with lastAccelUpdateTime := s.lastAccelUpdateTime + δ,
               currentSpeed :=
                 rampedSpeed s.currentSpeed s.speed s.acceleration s.jogMode (elapsedSec δ),
               stepAccumulator := s.stepAccumulator + tickGain δ s - 1,
               driverDirection := true,
               stepsEmitted := s.stepsEmitted + 1,
               currentPosition := s.currentPosition + 1 } := by
  unfold tickEvery
  rw [processStep_cross_below_target hrun hcont hpos
    (by simpa [Nat.add_sub_cancel_left] using hcr)]
  simp [Nat.add_sub_cancel_left]

/-- `tickEvery` version of `processStep_cross_above_target`. -/
theorem tickEvery_cross_above_target {δ : ℕ} {s : MotorState} (hrun : s.isRunning = true)
    (hcont : s.isContinuous = false) (hpos : s.targetPosition < s.currentPosition)
    (hcr : 1 ≤ s.stepAccumulator + tickGain δ s) :
    tickEvery δ s =
      { s with lastAccelUpdateTime := s.lastAccelUpdateTime + δ,
               currentSpeed :=
                 rampedSpeed s.currentSpeed s.speed s.acceleration s.jogMode (elapsedSec δ),
               stepAccumulator := s.stepAccumulator + tickGain δ s - 1,
               driverDirection := false,
               stepsEmitted := s.stepsEmitted + 1,
               currentPosition := s.currentPosition - 1 } := by
  unfold tickEvery
  rw [processStep_cross_above_target hrun hcont hpos
    (by simpa [Nat.add_sub_cancel_left] using hcr)]
  simp [Nat.add_sub_cancel_left]

/-- Under the position-mode invariant, the tick gain is nonnegative and at
least `accelGain`. -/
theorem tickGain_bounds {N spd accel : ℤ} {δ : ℕ} {s : MotorState}
    (h : PosInv N spd accel s) (ha : 0 < accel) :
    0 ≤ tickGain δ s ∧ accelGain spd accel δ ≤ tickGain δ s := by
  obtain ⟨hcont, hjog, htgt, hspd, hacc, hp0, hpN, hcs0, hcs1, hacc0, hemit, hstop⟩ := h
  have hE := elapsedSec_nonneg δ
  have hb := rampedSpeed_bounds hcs0 hcs1 ha hE
  have hrs : rampedSpeed s.currentSpeed s.speed s.acceleration s.jogMode (elapsedSec δ)
      = rampedSpeed s.currentSpeed spd accel false (elapsedSec δ) := by
    rw [hspd, hacc, hjog]
  constructor
  · simp only [tickGain, hrs]
    exact mul_nonneg hb.1 hE
  · simp only [tickGain, accelGain, hrs]
    exact mul_le_mul_of_nonneg_right hb.2.2 hE

/-- Under the position-mode invariant, the ramped speed stays in `[0, spd]`. -/
theorem rampedSpeed_inv_bounds {N spd accel : ℤ} {δ : ℕ} {s : MotorState}
    (h : PosInv N spd accel s) (ha : 0 < accel) :
    0 ≤ rampedSpeed s.currentSpeed s.speed s.acceleration s.jogMode (elapsedSec δ) ∧
    rampedSpeed s.currentSpeed s.speed s.acceleration s.jogMode (elapsedSec δ) ≤ (spd : ℚ) := by
  obtain ⟨hcont, hjog, htgt, hspd, hacc, hp0, hpN, hcs0, hcs1, hacc0, hemit, hstop⟩ := h
  have hE := elapsedSec_nonneg δ
  have hb := rampedSpeed_bounds hcs0 hcs1 ha hE
  rw [hspd, hacc, hjog]
  exact ⟨hb.1, hb.2.1⟩

/-- One tick preserves the position-mode invariant. -/
theorem tick_preserves_PosInv {N spd accel : ℤ} {δ : ℕ} {s : MotorState}
    (ha : 0 < accel) (h : PosInv N spd accel s) :
    PosInv N spd accel (tickEvery δ s) := by
  have hg0 := (tickGain_bounds (δ := δ) h ha).1
  have hrsb := rampedSpeed_inv_bounds (δ := δ) h ha
  obtain ⟨hcont, hjog, htgt, hspd, hacc, hp0, hpN, hcs0, hcs1, hacc0, hemit, hstop⟩ := h
  by_cases hrun : s.isRunning = true
  · by_cases hcr : 1 ≤ s.stepAccumulator + tickGain δ s
    · rcases lt_trichotomy s.currentPosition s.targetPosition with hlt | heq | hgt
      · rw [tickEvery_cross_below_target hrun hcont hlt hcr]
        have hNlt : s.currentPosition < N := htgt ▸ hlt
        refine ⟨hcont, hjog, htgt, hspd, hacc, ?_, ?_, hrsb.1, hrsb.2, ?_, ?_, ?_⟩
        · show 0 ≤ s.currentPosition + 1
          omega
        · show s.currentPosition + 1 ≤ N
          omega
        · show 0 ≤ s.stepAccumulator + tickGain δ s - 1
          linarith
        · show ((s.stepsEmitted + 1 : ℕ) : ℤ) = s.currentPosition + 1
          push_cast
          omega
        · exact fun hx => absurd (hrun.symm.trans hx) (by decide)
      · rw [tickEvery_cross_at_target hrun hcont heq hcr]
        refine ⟨hcont, hjog, htgt, hspd, hacc, hp0, hpN, hrsb.1, hrsb.2, ?_,
          hemit, fun _ => heq.trans htgt⟩
        show 0 ≤ s.stepAccumulator + tickGain δ s - 1
        linarith
      · exact absurd hgt (by omega)
    · rw [tickEvery_no_cross hrun hcr]
      refine ⟨hcont, hjog, htgt, hspd, hacc, hp0, hpN, hrsb.1, hrsb.2, ?_,
        hemit, fun hx => absurd (hrun.symm.trans hx) (by decide)⟩
      show 0 ≤ s.stepAccumulator + tickGain δ s
      linarith
  · have hrf : s.isRunning = false := by
      simpa using hrun
    rw [tickEvery_not_running hrf]
    exact ⟨hcont, hjog, htgt, hspd, hacc, hp0, hpN, hcs0, hcs1, hacc0, hemit, hstop⟩

/-- The position-mode invariant holds along the whole run. -/
theorem iterate_PosInv {N spd accel : ℤ} {δ : ℕ} (ha : 0 < accel)
    {s : MotorState} (h : PosInv N spd accel s) (k : ℕ) :
    PosInv N spd accel ((tickEvery δ)^[k] s) := by
  induction k with
  | zero => simpa using h
  | succ n ih =>
      rw [Function.iterate_succ_apply']
      exact tick_preserves_PosInv ha ih

/-- With positive target speed, acceleration and tick period, the per-tick
gain lower bound is strictly positive. -/
theorem accelGain_pos {spd accel : ℤ} {δ : ℕ} (hs : 0 < spd) (ha : 0 < accel)
    (hδ : 0 < δ) : 0 < accelGain spd accel δ := by
  have hE := elapsedSec_pos hδ
  have h1 : (0 : ℚ) < (spd : ℚ) := by exact_mod_cast hs
  have h2 : (0 : ℚ) < (accel : ℚ) * elapsedSec δ :=
    mul_pos (by exact_mod_cast ha) hE
  exact mul_pos (lt_min h1 h2) hE

/-- A running crossing tick in position mode either stops the engine (at the
target) or advances the position by exactly one step; the invariant survives. -/
theorem first_tick_crossing {N spd accel : ℤ} {δ : ℕ} (ha : 0 < accel)
    {s : MotorState} (h : PosInv N spd accel s) (hrun : s.isRunning = true)
    (hcr : 1 ≤ s.stepAccumulator + tickGain δ s) :
    (tickEvery δ s).isRunning = false
    ∨ ((tickEvery δ s).isRunning = true ∧
       (tickEvery δ s).currentPosition = s.currentPosition + 1 ∧
       PosInv N spd accel (tickEvery δ s)) := by
  have hinv := tick_preserves_PosInv (δ := δ) ha h
  obtain ⟨hcont, hjog, htgt, hspd, hacc, hp0, hpN, hcs0, hcs1, hacc0, hemit, hstop⟩ := h
  rcases lt_trichotomy s.currentPosition s.targetPosition with hlt | heq | hgt
  · right
    rw [tickEvery_cross_below_target hrun hcont hlt hcr]
    rw [tickEvery_cross_below_target hrun hcont hlt hcr] at hinv
    exact ⟨hrun, rfl, hinv⟩
  · left
    rw [tickEvery_cross_at_target hrun hcont heq hcr]
  · exact absurd hgt (by omega)

/-- From any running position-mode state whose accumulator plus `n` worth of
minimum gains reaches 1, within finitely many ticks either the engine stops
or the position advances by exactly one step. -/
theorem cross_or_stop {N spd accel : ℤ} {δ : ℕ} (ha : 0 < accel) :
    ∀ (n : ℕ) (s : MotorState), PosInv N spd accel s → s.isRunning = true →
      (1 : ℚ) ≤ s.stepAccumulator + n * accelGain spd accel δ →
      ∃ k : ℕ, ((tickEvery δ)^[k + 1] s).isRunning = false
        ∨ (((tickEvery δ)^[k + 1] s).isRunning = true ∧
           ((tickEvery δ)^[k + 1] s).currentPosition = s.currentPosition + 1 ∧
           PosInv N spd accel ((tickEvery δ)^[k + 1] s)) := by
  intro n
  induction n with
  | zero =>
      intro s h hrun hbound
      have hg0 := (tickGain_bounds (δ := δ) h ha).1
      have hcr : 1 ≤ s.stepAccumulator + tickGain δ s := by
        push_cast at hbound
        linarith
      refine ⟨0, ?_⟩
      rw [Function.iterate_one]
      exact first_tick_crossing ha h hrun hcr
  | succ m ih =>
      intro s h hrun hbound
      by_cases hcr : 1 ≤ s.stepAccumulator + tickGain δ s
      · refine ⟨0, ?_⟩
        rw [Function.iterate_one]
        exact first_tick_crossing ha h hrun hcr
      · have hgl := (tickGain_bounds (δ := δ) h ha).2
        have hres := tickEvery_no_cross hrun hcr
        have hinv := tick_preserves_PosInv (δ := δ) ha h
        have hrun1 : (tickEvery δ s).isRunning = true := by
          rw [hres]
          exact hrun
        have hacc1 : (tickEvery δ s).stepAccumulator
            = s.stepAccumulator + tickGain δ s := by
          rw [hres]
        have hpos1 : (tickEvery δ s).currentPosition = s.currentPosition := by
          rw [hres]
        have hbound1 : (1 : ℚ) ≤ (tickEvery δ s).stepAccumulator
            + m * accelGain spd accel δ := by
          rw [hacc1]
          push_cast at hbound
          linarith
        obtain ⟨k, hk⟩ := ih (tickEvery δ s) hinv hrun1 hbound1
        refine ⟨k + 1, ?_⟩
        rw [Function.iterate_succ_apply]
        rcases hk with hk | ⟨h1, h2, h3⟩
        · exact Or.inl hk
        · exact Or.inr ⟨h1, by rw [h2, hpos1], h3⟩

/-- Every position-mode run satisfying the invariant eventually stops. -/
theorem eventually_stops {N spd accel : ℤ} {δ : ℕ} (hs : 0 < spd)
    (ha : 0 < accel) (hδ : 0 < δ) :
    ∀ (d : ℕ) (s : MotorState), PosInv N spd accel s → s.isRunning = true →
      (N - s.currentPosition).toNat ≤ d →
      ∃ m : ℕ, ((tickEvery δ)^[m] s).isRunning = false := by
  have hg := accelGain_pos (δ := δ) hs ha hδ
  intro d
  induction d with
  | zero =>
      intro s h hrun hd
      obtain ⟨n, hn⟩ := exists_nat_gt ((1 - s.stepAccumulator) / accelGain spd accel δ)
      have hbound : (1 : ℚ) ≤ s.stepAccumulator + n * accelGain spd accel δ := by
        rw [div_lt_iff₀ hg] at hn
        linarith
      obtain ⟨k, hk⟩ := cross_or_stop ha n s h hrun hbound
      rcases hk with hk | ⟨h1, h2, hinv1⟩
      · exact ⟨k + 1, hk⟩
      · obtain ⟨_, _, htgt1, _, _, _, hpN1, _, _, _, _, _⟩ := hinv1
        obtain ⟨_, _, htgt, _, _, hp0, hpN, _, _, _, _, _⟩ := h
        rw [h2] at hpN1
        omega
  | succ d ih =>
      intro s h hrun hd
      obtain ⟨n, hn⟩ := exists_nat_gt ((1 - s.stepAccumulator) / accelGain spd accel δ)
      have hbound : (1 : ℚ) ≤ s.stepAccumulator + n * accelGain spd accel δ := by
        rw [div_lt_iff₀ hg] at hn
        linarith
      obtain ⟨k, hk⟩ := cross_or_stop ha n s h hrun hbound
      rcases hk with hk | ⟨h1, h2, hinv1⟩
      · exact ⟨k + 1, hk⟩
      · have hd1 : (N - ((tickEvery δ)^[k + 1] s).currentPosition).toNat ≤ d := by
          obtain ⟨_, _, htgt1, _, _, _, hpN1, _, _, _, _, _⟩ := hinv1
          obtain ⟨_, _, htgt, _, _, hp0, hpN, _, _, _, _, _⟩ := h
          rw [h2] at hpN1 ⊢
          omega
        obtain ⟨m, hm⟩ := ih ((tickEvery δ)^[k + 1] s) hinv1 h1 hd1
        refine ⟨m + (k + 1), ?_⟩
        rw [Function.iterate_add_apply]
        exact hm

/-- A tick on a stopped engine leaves the state untouched (early return). -/
theorem processStep_not_running {s : MotorState} (t : ℕ) (h : s.isRunning = false) :
    processStep s t = s := by
  simp [processStep, h]

/-- The accumulator after any running tick: the gain is added and, when the
result crosses 1, exactly 1 is subtracted. -/
theorem processStep_stepAccumulator (s : MotorState) (t : ℕ) (hrun : s.isRunning = true) :
    (processStep s t).stepAccumulator =
      (if 1 ≤ s.stepAccumulator + tickGain (t - s.lastAccelUpdateTime) s
       then s.stepAccumulator + tickGain (t - s.lastAccelUpdateTime) s - 1
       else s.stepAccumulator + tickGain (t - s.lastAccelUpdateTime) s) := by
  unfold processStep tickGain
  simp only [hrun, Bool.not_true, Bool.false_eq_true, if_false]
  split_ifs <;> rfl

/-- Claim C2 (amended part): processing `CMD_STOP_MOTOR` from any state
clears the running, continuous and jog flags and disables the driver, leaves
`currentSpeed` (and every other field) unchanged, and is idempotent: a second
STOP is a no-op, so STOP while idle keeps the mode idle. -/
theorem claim_C2_stop_idempotent_without_speed_reset (s : MotorState)
    (cmd : MotorCommand) (now now2 : ℕ) (hstop : cmd.cmd_type = CMD_STOP_MOTOR) :
    (handleCommand s cmd now).isRunning = false ∧
    (handleCommand s cmd now).isContinuous = false ∧
    (handleCommand s cmd now).driverEnabled = false ∧
    (handleCommand s cmd now).jogMode = false ∧
    (handleCommand s cmd now).currentSpeed = s.currentSpeed ∧
    (handleCommand s cmd now).currentPosition = s.currentPosition ∧
    handleCommand (handleCommand s cmd now) cmd now2 = handleCommand s cmd now := by
  obtain ⟨ct, p, sp, d, c, a⟩ := cmd
  cases hstop
  exact ⟨rfl, rfl, rfl, rfl, rfl, rfl, rfl⟩

/-- Claim C2 witness: the amended STOP theorem at a concrete running state. -/
theorem claim_C2_witness :
    (⟨CMD_STOP_MOTOR, 0, 0, true, false, 0⟩ : MotorCommand).cmd_type = CMD_STOP_MOTOR ∧
    ((handleCommand (posMoveStart 5 1000 6400 0)
        ⟨CMD_STOP_MOTOR, 0, 0, true, false, 0⟩ 7).isRunning = false ∧
     (handleCommand (posMoveStart 5 1000 6400 0)
        ⟨CMD_STOP_MOTOR, 0, 0, true, false, 0⟩ 7).isContinuous = false ∧
     (handleCommand (posMoveStart 5 1000 6400 0)
        ⟨CMD_STOP_MOTOR, 0, 0, true, false, 0⟩ 7).driverEnabled = false ∧
     (handleCommand (posMoveStart 5 1000 6400 0)
        ⟨CMD_STOP_MOTOR, 0, 0, true, false, 0⟩ 7).jogMode = false ∧
     (handleCommand (posMoveStart 5 1000 6400 0)
        ⟨CMD_STOP_MOTOR, 0, 0, true, false, 0⟩ 7).currentSpeed
        = (posMoveStart 5 1000 6400 0).currentSpeed ∧
     (handleCommand (posMoveStart 5 1000 6400 0)
        ⟨CMD_STOP_MOTOR, 0, 0, true, false, 0⟩ 7).currentPosition
        = (posMoveStart 5 1000 6400 0).currentPosition ∧
     handleCommand (handleCommand (posMoveStart 5 1000 6400 0)
        ⟨CMD_STOP_MOTOR, 0, 0, true, false, 0⟩ 7) ⟨CMD_STOP_MOTOR, 0, 0, true, false, 0⟩ 9
        = handleCommand (posMoveStart 5 1000 6400 0)
            ⟨CMD_STOP_MOTOR, 0, 0, true, false, 0⟩ 7) :=
  ⟨rfl, claim_C2_stop_idempotent_without_speed_reset (posMoveStart 5 1000 6400 0)
    ⟨CMD_STOP_MOTOR, 0, 0, true, false, 0⟩ 7 9 rfl⟩

/-- Claim C2 counterexample: a reachable idle state (a completed MOVE_TO)
carries residual `currentSpeed = 19200`; processing STOP leaves that speed
untouched, refuting that STOP sets `currentSpeed` to 0. -/
theorem claim_C2_counterexample :
    idleCoasting.isRunning = false ∧
    (handleCommand idleCoasting ⟨CMD_STOP_MOTOR, 0, 0, true, false, 0⟩ 0).currentSpeed = 19200 ∧
    ¬((handleCommand idleCoasting ⟨CMD_STOP_MOTOR, 0, 0, true, false, 0⟩ 0).currentSpeed = 0) := by
  refine ⟨?_, ?_, ?_⟩ <;>
    norm_num [idleCoasting, handleCommand, processStep, rampedSpeed, elapsedSec,
      initialState, minIntervalFor]

/-- Claim C3: the command handler has no `CMD_SET_ACCELERATION` case, so the
command falls through the default branch and changes nothing; in particular a
SET_ACCELERATION with value 999 leaves the acceleration at its initial 6400. -/
theorem claim_C3_set_acceleration_ignored (s : MotorState) (p sp : ℤ)
    (d c : Bool) (a : ℤ) (now : ℕ) :
    handleCommand s ⟨CMD_SET_ACCELERATION, p, sp, d, c, a⟩ now = s ∧
    (handleCommand initialState
      ⟨CMD_SET_ACCELERATION, 0, 0, true, false, 999⟩ 0).acceleration = 6400 :=
  ⟨rfl, rfl⟩

/-- Claim C4 (amended part): only `CMD_MOVE_STEPS` and `CMD_START_CONTINUOUS`
re-synchronize the elapsed-time baseline to the current time; `CMD_MOVE_TO`,
`CMD_START_JOG` and `CMD_MOVE_JOG` leave `lastAccelUpdateTime` unchanged. -/
theorem claim_C4_amended_partial_baseline_resync (s : MotorState)
    (cmd : MotorCommand) (now : ℕ) :
    (handleCommand s { cmd with cmd_type := CMD_MOVE_STEPS } now).lastAccelUpdateTime = now ∧
    (handleCommand s { cmd with cmd_type := CMD_START_CONTINUOUS } now).lastAccelUpdateTime = now ∧
    (handleCommand s { cmd with cmd_type := CMD_MOVE_TO } now).lastAccelUpdateTime
      = s.lastAccelUpdateTime ∧
    (handleCommand s { cmd with cmd_type := CMD_START_JOG } now).lastAccelUpdateTime
      = s.lastAccelUpdateTime ∧
    (handleCommand s { cmd with cmd_type := CMD_MOVE_JOG } now).lastAccelUpdateTime
      = s.lastAccelUpdateTime :=
  ⟨rfl, rfl, rfl, rfl, rfl⟩

/-- Claim C4 counterexample: a `CMD_MOVE_TO` processed at time 9000000 with a
stale baseline 0 leaves the baseline at 0, refuting that every mode-entry
command re-synchronizes the elapsed-time baseline. -/
theorem claim_C4_counterexample :
    (handleCommand initialState
      ⟨CMD_MOVE_TO, 5, 1000, true, false, 0⟩ 9000000).isRunning = true ∧
    (handleCommand initialState
      ⟨CMD_MOVE_TO, 5, 1000, true, false, 0⟩ 9000000).lastAccelUpdateTime = 0 ∧
    ¬((handleCommand initialState
      ⟨CMD_MOVE_TO, 5, 1000, true, false, 0⟩ 9000000).lastAccelUpdateTime = 9000000) :=
  ⟨rfl, rfl, by decide⟩

/-- Claim C5 (amended part): `CMD_MOVE_TO` and `CMD_MOVE_STEPS` both set the
target position and target speed from the command and reset the accumulator,
but only `CMD_MOVE_STEPS` resets `currentSpeed` to 0 — `CMD_MOVE_TO` and the
jog-continuation `CMD_MOVE_JOG` leave `currentSpeed` unchanged. -/
theorem claim_C5_amended_ramp_cold_start (s : MotorState)
    (cmd : MotorCommand) (now : ℕ) :
    ((handleCommand s { cmd with cmd_type := CMD_MOVE_TO } now).targetPosition = cmd.position ∧
     (handleCommand s { cmd with cmd_type := CMD_MOVE_TO } now).speed = cmd.speed ∧
     (handleCommand s { cmd with cmd_type := CMD_MOVE_TO } now).stepAccumulator = 0 ∧
     (handleCommand s { cmd with cmd_type := CMD_MOVE_TO } now).currentSpeed
       = s.currentSpeed) ∧
    ((handleCommand s { cmd with cmd_type := CMD_MOVE_STEPS } now).targetPosition
       = s.currentPosition + cmd.position ∧
     (handleCommand s { cmd with cmd_type := CMD_MOVE_STEPS } now).speed = cmd.speed ∧
     (handleCommand s { cmd with cmd_type := CMD_MOVE_STEPS } now).stepAccumulator = 0 ∧
     (handleCommand s { cmd with cmd_type := CMD_MOVE_STEPS } now).currentSpeed = 0) ∧
    (handleCommand s { cmd with cmd_type := CMD_MOVE_JOG } now).currentSpeed
      = s.currentSpeed :=
  ⟨⟨rfl, rfl, rfl, rfl⟩, ⟨rfl, rfl, rfl, rfl⟩, rfl⟩

/-- Claim C5 counterexample: a `CMD_MOVE_TO` processed in a reachable state
with residual `currentSpeed = 19200` keeps that speed, refuting that MOVE_TO
cold-starts the ramp at `currentSpeed = 0`. -/
theorem claim_C5_counterexample :
    idleCoasting.currentSpeed = 19200 ∧
    (handleCommand idleCoasting
      ⟨CMD_MOVE_TO, 100, 1000000, true, false, 0⟩ 0).currentSpeed = 19200 ∧
    ¬((handleCommand idleCoasting
      ⟨CMD_MOVE_TO, 100, 1000000, true, false, 0⟩ 0).currentSpeed = 0) := by
  refine ⟨?_, ?_, ?_⟩ <;>
    norm_num [idleCoasting, handleCommand, processStep, rampedSpeed, elapsedSec,
      initialState, minIntervalFor]

/-- Claim C6 (amended part): in position mode every emitted step moves the
position toward the target (increment below target, decrement above it,
with the matching driver direction), and a crossing tick that starts with
position already equal to the target clears the running flag and disables
the driver without emitting a step — so the IDLE transition happens on the
first crossing tick after the final step, not on the tick that emitted it. -/
theorem claim_C6_amended_steps_toward_target_idle_deferred (s : MotorState) (t : ℕ)
    (hrun : s.isRunning = true) (hcont : s.isContinuous = false)
    (hcr : 1 ≤ s.stepAccumulator + tickGain (t - s.lastAccelUpdateTime) s) :
    (s.currentPosition < s.targetPosition →
        (processStep s t).currentPosition = s.currentPosition + 1 ∧
        (processStep s t).driverDirection = true ∧
        (processStep s t).stepsEmitted = s.stepsEmitted + 1 ∧
        (processStep s t).isRunning = true ∧
        (processStep s t).driverEnabled = s.driverEnabled) ∧
    (s.targetPosition < s.currentPosition →
        (processStep s t).currentPosition = s.currentPosition - 1 ∧
        (processStep s t).driverDirection = false ∧
        (processStep s t).stepsEmitted = s.stepsEmitted + 1 ∧
        (processStep s t).isRunning = true ∧
        (processStep s t).driverEnabled = s.driverEnabled) ∧
    (s.currentPosition = s.targetPosition →
        (processStep s t).isRunning = false ∧
        (processStep s t).driverEnabled = false ∧
        (processStep s t).currentPosition = s.currentPosition ∧
        (processStep s t).stepsEmitted = s.stepsEmitted) := by
  refine ⟨fun hpos => ?_, fun hpos => ?_, fun hpos => ?_⟩
  · rw [processStep_cross_below_target hrun hcont hpos hcr]
    exact ⟨rfl, rfl, rfl, hrun, rfl⟩
  · rw [processStep_cross_above_target hrun hcont hpos hcr]
    exact ⟨rfl, rfl, rfl, hrun, rfl⟩
  · rw [processStep_cross_at_target hrun hcont hpos hcr]
    exact ⟨rfl, rfl, rfl, rfl⟩

/-- Claim C6 witness: the amended theorem applied to the final step of a
1-step move. -/
theorem claim_C6_witness :
    (processStep (posMoveStart 1 1000000 6400 0) 3000000).currentPosition
      = (posMoveStart 1 1000000 6400 0).currentPosition + 1 :=
  ((claim_C6_amended_steps_toward_target_idle_deferred
      (posMoveStart 1 1000000 6400 0) 3000000 rfl rfl
      (by norm_num [tickGain, rampedSpeed, elapsedSec, posMoveStart])).1
    (by norm_num [posMoveStart])).1

/-- Claim C6 counterexample: the tick that emits the final step of a 1-step
move ends with position equal to target but the running flag still true and
the driver still enabled — the IDLE transition does not happen within the
tick on which the position becomes equal to the target. -/
theorem claim_C6_counterexample :
    finalStepTick.currentPosition = finalStepTick.targetPosition ∧
    finalStepTick.isRunning = true ∧
    finalStepTick.driverEnabled = true := by
  refine ⟨?_, ?_, ?_⟩ <;>
    norm_num [finalStepTick, posMoveStart, processStep, rampedSpeed, elapsedSec,
      minIntervalFor]

/-- Claim C7 (amended part): the accumulator stays nonnegative, and a tick
whose gain is at most 1 keeps it below 1; when the accumulator crosses 1 it
is decremented by exactly 1.0 (remainder preserved), but a single tick with a
large `currentSpeed * elapsed` gain can leave it at or above 1, so the upper
bound is not an unconditional invariant. -/
theorem claim_C7_amended_accumulator_bounds (s : MotorState) (t : ℕ)
    (h0 : 0 ≤ s.stepAccumulator) :
    (0 ≤ tickGain (t - s.lastAccelUpdateTime) s → 0 ≤ (processStep s t).stepAccumulator) ∧
    (s.stepAccumulator < 1 → tickGain (t - s.lastAccelUpdateTime) s ≤ 1 →
        (processStep s t).stepAccumulator < 1) ∧
    (s.isRunning = true → 1 ≤ s.stepAccumulator + tickGain (t - s.lastAccelUpdateTime) s →
        (processStep s t).stepAccumulator
          = s.stepAccumulator + tickGain (t - s.lastAccelUpdateTime) s - 1) := by
  by_cases hrun : s.isRunning = true
  · rw [processStep_stepAccumulator s t hrun]
    refine ⟨fun hg => ?_, fun ha1 hg1 => ?_, fun _ hcr => ?_⟩
    · split_ifs with h <;> linarith
    · split_ifs with h <;> linarith
    · rw [if_pos hcr]
  · have hrf : s.isRunning = false := by simpa using hrun
    rw [processStep_not_running t hrf]
    exact ⟨fun _ => h0, fun ha1 _ => ha1, fun hr => absurd hr hrun⟩

/-- Claim C7 witness: the amended accumulator bounds applied to the first
tick of a fresh move with a small gain. -/
theorem claim_C7_witness :
    0 ≤ (processStep (posMoveStart 10 1000000 6400 0) 1000).stepAccumulator :=
  (claim_C7_amended_accumulator_bounds (posMoveStart 10 1000000 6400 0) 1000
      (by norm_num [posMoveStart])).1
    (by norm_num [tickGain, rampedSpeed, elapsedSec, posMoveStart])

/-- Claim C7 counterexample: a single reachable tick (fresh MOVE_TO, 3 s
elapsed) ends with `stepAccumulator = 57599`, refuting the claimed invariant
`stepAccumulator < 1` at the end of every tick for every elapsed input. -/
theorem claim_C7_counterexample :
    ¬((processStep (posMoveStart 10 2000000 6400 0) 3000000).stepAccumulator < 1) := by
  norm_num [posMoveStart, processStep, rampedSpeed, elapsedSec, minIntervalFor]

/-- Claim C8: in jog mode the tick copies `targetSpeed` into `currentSpeed`
directly, with no acceleration ramping: after any running jog tick
`currentSpeed = targetSpeed`. -/
theorem claim_C8_jog_bypasses_ramp (s : MotorState) (t : ℕ)
    (hrun : s.isRunning = true) (hjog : s.jogMode = true) :
    (processStep s t).currentSpeed = (s.speed : ℚ) := by
  unfold processStep
  simp only [hrun, Bool.not_true, Bool.false_eq_true, if_false]
  rw [show rampedSpeed s.currentSpeed s.speed s.acceleration s.jogMode
      (elapsedSec (t - s.lastAccelUpdateTime)) = (s.speed : ℚ) by
    rw [rampedSpeed, hjog]
    simp]
  split_ifs <;> rfl

/-- Claim C8 witness: a fresh START_JOG at speed 500 and one tick later the
instantaneous speed is exactly 500, with no intermediate ramp sample. -/
theorem claim_C8_witness :
    (processStep (handleCommand initialState
      ⟨CMD_START_JOG, 0, 500, true, false, 0⟩ 0) 1000).currentSpeed = 500 :=
  (claim_C8_jog_bypasses_ramp
    (handleCommand initialState ⟨CMD_START_JOG, 0, 500, true, false, 0⟩ 0)
    1000 rfl rfl).trans (by norm_num [handleCommand])

/-- Claim C9 (amended part): away from the near-equality tolerance
(`|target - source| ≥ 0.1`), a clockwise leg whose target normalized value is
below the source moves `(100 - source) + target` percent (so 90 → 10
clockwise is 20, not -80), and a counter-clockwise leg with target above
source moves `source + (100 - target)` percent. Inside the tolerance the code
instead commands a full revolution (100). -/
theorem claim_C9_amended_sequence_wraparound (src tgt : ℚ) (_h0 : 0 ≤ src)
    (_h1 : src < 100) (_h2 : 0 ≤ tgt) (_h3 : tgt < 100)
    (hfar : 1/10 ≤ |tgt - src|) :
    (tgt < src → movementPercent src tgt true = (100 - src) + tgt) ∧
    (src < tgt → movementPercent src tgt false = src + (100 - tgt)) ∧
    movementPercent 90 10 true = 20 := by
  have hnear : ¬(|tgt - src| < 1/10) := not_lt.mpr hfar
  refine ⟨fun hlt => ?_, fun hlt => ?_, ?_⟩
  · have hno : ¬(src < tgt) := not_lt.mpr hlt.le
    unfold movementPercent
    rw [if_neg hnear]
    simp [hno]
  · have hno : ¬(tgt < src) := not_lt.mpr hlt.le
    unfold movementPercent
    rw [if_neg hnear]
    simp [hno]
  · have h80 : ¬(|(10 : ℚ) - 90| < 1/10) := by
      rw [show (10 : ℚ) - 90 = -80 by norm_num, abs_neg,
        abs_of_nonneg (by norm_num : (0:ℚ) ≤ 80)]
      norm_num
    unfold movementPercent
    rw [if_neg h80]
    norm_num

/-- Claim C9 witness: the amended wraparound theorem at the spec's own
example, source 90 %, target 10 %, clockwise. -/
theorem claim_C9_witness :
    movementPercent 90 10 true = (100 - 90) + 10 :=
  ((claim_C9_amended_sequence_wraparound 90 10 (by norm_num) (by norm_num)
      (by norm_num) (by norm_num)
      (by rw [show (10:ℚ) - 90 = -80 by norm_num, abs_neg,
            abs_of_nonneg (by norm_num : (0:ℚ) ≤ 80)]
          norm_num)).1 (by norm_num))

/-- Claim C9 counterexample: with source 50.05 % and target 50 % (clockwise,
target below source) the code takes the near-equality branch and commands a
full revolution of 100 %, not the claimed `(100 - source) + target = 99.95`. -/
theorem claim_C9_counterexample :
    movementPercent (1001/20) 50 true = 100 ∧
    ¬(movementPercent (1001/20) 50 true = (100 - 1001/20) + 50) := by
  have habs : |(50 : ℚ) - 1001/20| < 1/10 := by
    rw [show (50 : ℚ) - 1001/20 = -(1/20) by norm_num, abs_neg,
      abs_of_nonneg (by norm_num : (0:ℚ) ≤ 1/20)]
    norm_num
  constructor
  · unfold movementPercent
    rw [if_pos habs]
  · unfold movementPercent
    rw [if_pos habs]
    norm_num

/-- Claim C10: `setCurrentPosition(p)` writes `p` to both `currentPosition`
and `targetPosition`, so right after the call the target counts as reached
and the next position-mode tick emits no step and leaves the position at
`p`. -/
theorem claim_C10_setCurrentPosition_also_sets_target (s : MotorState) (p : ℤ)
    (t : ℕ) (hcont : s.isContinuous = false) :
    (setCurrentPosition s p).currentPosition = p ∧
    (setCurrentPosition s p).targetPosition = p ∧
    (processStep (setCurrentPosition s p) t).currentPosition = p ∧
    (processStep (setCurrentPosition s p) t).stepsEmitted = s.stepsEmitted := by
  have hpt : (setCurrentPosition s p).currentPosition
      = (setCurrentPosition s p).targetPosition := rfl
  by_cases hrun : (setCurrentPosition s p).isRunning = true
  · by_cases hcr : 1 ≤ (setCurrentPosition s p).stepAccumulator +
        tickGain (t - (setCurrentPosition s p).lastAccelUpdateTime) (setCurrentPosition s p)
    · rw [processStep_cross_at_target hrun hcont hpt hcr]
      exact ⟨rfl, rfl, rfl, rfl⟩
    · rw [processStep_no_cross hrun hcr]
      exact ⟨rfl, rfl, rfl, rfl⟩
  · have hrf : (setCurrentPosition s p).isRunning = false := by simpa using hrun
    rw [processStep_not_running t hrf]
    exact ⟨rfl, rfl, rfl, rfl⟩

/-- Claim C10 witness: zeroing to 42 from the initial state and ticking. -/
theorem claim_C10_witness :
    initialState.isContinuous = false ∧
    ((setCurrentPosition initialState 42).currentPosition = 42 ∧
     (setCurrentPosition initialState 42).targetPosition = 42 ∧
     (processStep (setCurrentPosition initialState 42) 5000).currentPosition = 42 ∧
     (processStep (setCurrentPosition initialState 42) 5000).stepsEmitted
       = initialState.stepsEmitted) :=
  ⟨rfl, claim_C10_setCurrentPosition_also_sets_target initialState 42 5000 rfl⟩

/-- Claim C1: a position-mode move started from rest at position 0 toward
target `N > 0`, with any positive target speed and acceleration, ticked with
any fixed positive period, never moves the position past `N`, never clears
the running flag before the position reaches `N`, and eventually clears the
running flag with the position at exactly `N` after emitting exactly `N`
steps. -/
theorem claim_C1_position_mode_termination (N spd accel : ℤ) (δ t0 : ℕ)
    (hN : 0 < N) (hs : 0 < spd) (ha : 0 < accel) (hδ : 0 < δ) :
    (∀ k : ℕ, ((tickEvery δ)^[k] (posMoveStart N spd accel t0)).currentPosition ≤ N) ∧
    (∀ k : ℕ, ((tickEvery δ)^[k] (posMoveStart N spd accel t0)).isRunning = false →
        ((tickEvery δ)^[k] (posMoveStart N spd accel t0)).currentPosition = N) ∧
    (∃ m : ℕ, ((tickEvery δ)^[m] (posMoveStart N spd accel t0)).isRunning = false ∧
        ((tickEvery δ)^[m] (posMoveStart N spd accel t0)).currentPosition = N ∧
        (((tickEvery δ)^[m] (posMoveStart N spd accel t0)).stepsEmitted : ℤ) = N) := by
  have hinv0 : PosInv N spd accel (posMoveStart N spd accel t0) := by
    refine ⟨rfl, rfl, rfl, rfl, rfl, le_refl 0, hN.le, le_refl 0, ?_, le_refl 0, rfl, ?_⟩
    · show (0 : ℚ) ≤ (spd : ℚ)
      exact_mod_cast hs.le
    · intro hx
      exact absurd (show (true : Bool) = false from hx) (by decide)
  refine ⟨?_, ?_, ?_⟩
  · intro k
    obtain ⟨_, _, _, _, _, _, hpN, _, _, _, _, _⟩ :=
      iterate_PosInv (δ := δ) ha hinv0 k
    exact hpN
  · intro k hk
    obtain ⟨_, _, _, _, _, _, _, _, _, _, _, hstop⟩ :=
      iterate_PosInv (δ := δ) ha hinv0 k
    exact hstop hk
  · obtain ⟨m, hm⟩ := eventually_stops hs ha hδ N.toNat (posMoveStart N spd accel t0)
      hinv0 rfl (by simp [posMoveStart])
    obtain ⟨_, _, _, _, _, _, _, _, _, _, hemit, hstop⟩ :=
      iterate_PosInv (δ := δ) ha hinv0 m
    refine ⟨m, hm, hstop hm, ?_⟩
    rw [hemit, hstop hm]

/-- Claim C1 witness: termination of a concrete 1-step move at speed 2,
acceleration 3, 1 µs tick period. -/
theorem claim_C1_witness :
    (∀ k : ℕ, ((tickEvery 1)^[k] (posMoveStart 1 2 3 0)).currentPosition ≤ 1) ∧
    (∀ k : ℕ, ((tickEvery 1)^[k] (posMoveStart 1 2 3 0)).isRunning = false →
        ((tickEvery 1)^[k] (posMoveStart 1 2 3 0)).currentPosition = 1) ∧
    (∃ m : ℕ, ((tickEvery 1)^[m] (posMoveStart 1 2 3 0)).isRunning = false ∧
        ((tickEvery 1)^[m] (posMoveStart 1 2 3 0)).currentPosition = 1 ∧
        (((tickEvery 1)^[m] (posMoveStart 1 2 3 0)).stepsEmitted : ℤ) = 1) :=
  claim_C1_position_mode_termination 1 2 3 1 0 (by norm_num) (by norm_num)
    (by norm_num) (by norm_num)

end MotorControl
